import Mathlib

/-!
Verification development for the archive-operations core of `src/main.py`
(iiArchive).  The Python functions relevant to the frozen claims are embedded
shallowly below:

* `_should_exclude`            — `IArchiveApp._should_exclude`
* `_write_to_zip` and friends  — `IArchiveApp._write_to_zip`
* `create_zip`                 — `IArchiveApp.create_zip` (three-tier strategy)
* `create_tar_entries`         — `IArchiveApp.create_tar` plus CPython
                                 `tarfile.TarFile.add` recursion with filter
* `process_archive_action`     — `IArchiveApp.process_archive_action` dispatch
* `run_extraction`             — `IArchiveApp.run_extraction` dispatch
* `delete_from_archive`        — `IArchiveApp.delete_from_archive` repack

Filesystem and archive state are explicit data; exceptional behaviour of the
underlying I/O is modelled by boolean failure oracles where a claim concerns
error paths.
-/

namespace IArchive

/-- Model of Python `str.endswith`: suffix test on the character sequence. -/
def pyEndsWith (s pat : String) : Bool :=
  pat.data.isSuffixOf s.data

/-- Model of Python `str.startswith`. -/
def pyStartsWith (s pat : String) : Bool :=
  pat.data.isPrefixOf s.data

/-- Model of `os.path.basename` on POSIX: the part of the path after the last
separator character. -/
def pyBasename (s : String) : String :=
  String.mk ((s.data.reverse.takeWhile (fun c => c ≠ '/')).reverse)

/-- Model of `os.path.join` on POSIX for two components (the only arity used
in the source): an absolute second component replaces the first, otherwise the
components are joined with a separator unless one is already present. -/
def pyJoin (a b : String) : String :=
  if pyStartsWith b "/" then b
  else if a = "" || pyEndsWith a "/" then a ++ b
  else a ++ "/" ++ b

/-- Left-to-right non-overlapping replacement of a non-empty pattern, the scan
of Python `str.replace`.  The fuel argument is the length of the remaining
text, which bounds the number of steps since the pattern is non-empty. -/
def pyReplaceAux (pat rep : List Char) : Nat → List Char → List Char
  | 0, rest => rest
  | _ + 1, [] => []
  | fuel + 1, c :: rest =>
      if pat.isPrefixOf (c :: rest) then
        rep ++ pyReplaceAux pat rep fuel ((c :: rest).drop pat.length)
      else
        c :: pyReplaceAux pat rep fuel rest

/-- Model of Python `str.replace(pat, rep)`: every non-overlapping occurrence
of `pat` is replaced by `rep`, scanning left to right; an empty pattern
interleaves `rep` between all characters as CPython does. -/
def pyReplace (s pat rep : String) : String :=
  if pat.data = [] then
    String.mk (rep.data ++ s.data.flatMap (fun c => c :: rep.data))
  else
    String.mk (pyReplaceAux pat.data rep.data s.data.length s.data)

/-- Embedding of `IArchiveApp._should_exclude` (src/main.py:531-533): an empty
(falsy) pattern never excludes; otherwise the result is
`filename.endswith(exclude_ext)`. -/
def _should_exclude (filename exclude_ext : String) : Bool :=
  if exclude_ext = "" then false
  else pyEndsWith filename exclude_ext

/-- A node of the filesystem tree handed to the write paths: a regular file
with its byte content, or a directory listing its children.  Children lists
model the order in which the directory is enumerated. -/
inductive FSNode where
  | file (name : String) (content : List Nat)
  | dir (name : String) (children : List FSNode)

/-- The last path component of a node. -/
def FSNode.name : FSNode → String
  | .file n _ => n
  | .dir n _ => n

/-- An input path as the GUI hands it to the write paths: `pre` is the leading
directory part of the path string (empty or ending in a separator) and `node`
is what the filesystem holds there, so the full path string is
`pre ++ node.name` and `os.path.basename` of it is `node.name`. -/
structure Input where
  pre : String
  node : FSNode

/-- The full path string of an input. -/
def Input.fullPath (i : Input) : String := i.pre ++ i.node.name

/-- An entry recorded in a zip archive by the model: the name under which it
is stored, the bare filename that the exclusion check inspected, and whether
it came from a regular file (as opposed to a bare directory placeholder). -/
structure ZEntry where
  arcname : String
  fname : String
  isFile : Bool
deriving DecidableEq

/-- The entries contributed by the regular files directly inside one directory
during `os.walk`, as `IArchiveApp._write_to_zip` records them
(src/main.py:579-585): the exclusion check is applied to the bare filename and
the archive name is the path relative to the walked directory's parent. -/
def zipFilesHere (exclude pre : String) : List FSNode → List ZEntry
  | [] => []
  | .file fn _ :: rest =>
      (if _should_exclude fn exclude then [] else [⟨pyJoin pre fn, fn, true⟩])
        ++ zipFilesHere exclude pre rest
  | .dir _ _ :: rest => zipFilesHere exclude pre rest

mutual

/-- The entries contributed below one child during `os.walk` (top-down): a
file child contributes nothing here (it was listed by `zipFilesHere`); a
directory child contributes first the files directly in it, then whatever
lies below its own subdirectories. -/
def zipWalkNode (exclude pre : String) : FSNode → List ZEntry
  | .file _ _ => []
  | .dir dn cs =>
      zipFilesHere exclude (pyJoin pre dn) cs ++ zipWalkDirs exclude (pyJoin pre dn) cs

/-- The entries contributed by the subdirectories of one directory during
`os.walk` (top-down), in listing order. -/
def zipWalkDirs (exclude pre : String) : List FSNode → List ZEntry
  | [] => []
  | c :: rest => zipWalkNode exclude pre c ++ zipWalkDirs exclude pre rest

end

/-- Embedding of `IArchiveApp._write_to_zip` (src/main.py:571-588).  A file
input is stored under its base name when the full path does not end in the
exclusion pattern; a directory input is either walked recursively with
per-filename exclusion, or stored as a single placeholder entry under its base
name with no exclusion check at all. -/
def _write_to_zip (recursive : Bool) (exclude : String) (inputs : List Input) :
    List ZEntry :=
  inputs.flatMap fun i =>
    match i.node with
    | .file fn _ =>
        if _should_exclude (i.pre ++ fn) exclude then [] else [⟨fn, fn, true⟩]
    | .dir dn cs =>
        if recursive then zipFilesHere exclude dn cs ++ zipWalkDirs exclude dn cs
        else [⟨dn, dn, false⟩]

/-- Outcome of `IArchiveApp.create_zip` (src/main.py:535-569).  The write
tiers record what is written (the in-process entry list, or the command handed
to the external `zip` tool); the error constructors model the exceptions the
function raises. -/
inductive ZipResult where
  | pyzipperWrite (entries : List ZEntry)
  | externalCmd (cmd : List String)
  | standardWrite (entries : List ZEntry)
  | errPyzipper
  | errToolMissing
  | errToolFailed
deriving DecidableEq

/-- Embedding of `IArchiveApp.create_zip` (src/main.py:535-569).
`hasPyzipper` models the import-time `HAS_PYZIPPER` flag, `tier1Fails`
whether the pyzipper write raises, `zipInstalled` whether probing `zip -h`
finds the binary, and `toolFails` whether the external invocation exits
non-zero.  Strategy 2 passes the raw input path strings to the command with
no exclusion filtering, exactly as the source does. -/
def create_zip (hasPyzipper tier1Fails zipInstalled toolFails : Bool)
    (inputs : List Input) (dest pwd : String) (recursive : Bool)
    (exclude : String) : ZipResult :=
  if hasPyzipper && pwd ≠ "" then
    if tier1Fails then ZipResult.errPyzipper
    else ZipResult.pyzipperWrite (_write_to_zip recursive exclude inputs)
  else if pwd ≠ "" then
    if !zipInstalled then ZipResult.errToolMissing
    else if toolFails then ZipResult.errToolFailed
    else
      ZipResult.externalCmd
        (["zip", "-P", pwd] ++ (if recursive then ["-r"] else ["-j"])
          ++ [dest] ++ inputs.map Input.fullPath)
  else ZipResult.standardWrite (_write_to_zip recursive exclude inputs)

/-- The filter closure built inside `IArchiveApp.create_tar`
(src/main.py:594-599): drop a directory entry other than the input's base
name when not recursive, drop anything whose archive name ends in the
exclusion pattern, keep the rest. -/
def tarFilterKeep (recursive : Bool) (base exclude : String)
    (name : String) (isdir : Bool) : Bool :=
  if !recursive && isdir && name ≠ base then false
  else if _should_exclude name exclude then false
  else true

mutual

/-- CPython `tarfile.TarFile.add` with `recursive=True` (the source never
passes `recursive=False` to `add`) and a filter: the names added for one node
at a given archive name.  A filtered-out node is skipped entirely, so a
pruned directory is not descended into; an added directory is followed by its
children under `os.path.join(arcname, childname)`. -/
def tarAddNode (keep : String → Bool → Bool) : FSNode → String → List String
  | .file _ _, arc => if keep arc false then [arc] else []
  | .dir _ cs, arc =>
      if keep arc true then arc :: tarAddList keep cs arc else []

/-- The names added for a directory's children, in listing order. -/
def tarAddList (keep : String → Bool → Bool) : List FSNode → String → List String
  | [], _ => []
  | c :: cs, arc =>
      tarAddNode keep c (pyJoin arc c.name) ++ tarAddList keep cs arc

end

/-- Embedding of `IArchiveApp.create_tar` (src/main.py:590-600): the member
names of the produced tar.  Each input whose full path ends in the exclusion
pattern is skipped up front; the rest are added under their base name through
`tarfile.add` with the filter closure above. -/
def create_tar_entries (recursive : Bool) (exclude : String)
    (files : List Input) : List String :=
  files.flatMap fun i =>
    if _should_exclude i.fullPath exclude then []
    else tarAddNode (tarFilterKeep recursive i.node.name exclude) i.node i.node.name

/-- The data written to a destination file by the creation paths. -/
inductive FileData where
  | compressed (fmt : String) (payload : List Nat)
  | zipArchive (entries : List ZEntry)
  | externalZip (cmd : List String)
  | tarArchive (entries : List String)
deriving DecidableEq

/-- Embedding of `IArchiveApp.create_single_compress` (src/main.py:602-605):
open the single input for reading and stream it through the format's codec
into the destination.  Opening a directory for byte reading raises, which the
caller surfaces as a critical error. -/
def create_single_compress (fmt : String) (inp : Input) (dest : String) :
    Except String (List (String × FileData)) :=
  match inp.node with
  | .file _ content => Except.ok [(dest, FileData.compressed fmt content)]
  | .dir _ _ => Except.error "IsADirectoryError"

/-- Outcome of `IArchiveApp.process_archive_action` (src/main.py:487-529):
the warning boxes for missing input, the success box together with the files
written, the informational box for formats needing external binaries, and the
critical box for a raised exception.  `unsupportedInputCount` is the failure
the specification prescribes for single-input formats given several inputs;
the code never produces it, and it is present so that claims about it can be
stated. -/
inductive ProcOutcome where
  | warnNoInputs
  | warnNoDestination
  | successMsg (writes : List (String × FileData))
  | infoExternalBinaries
  | criticalError (msg : String)
  | unsupportedInputCount
deriving DecidableEq

/-- Embedding of `IArchiveApp.process_archive_action` (src/main.py:487-529).
After the two GUI-side guards it dispatches purely on the format name; the
single-stream formats call `create_single_compress` on `files[0]` only. -/
def process_archive_action (hasPyzipper tier1Fails zipInstalled toolFails : Bool)
    (files : List Input) (fmt pwd : String) (recursive : Bool)
    (exclude dest : String) : ProcOutcome :=
  match files with
  | [] => ProcOutcome.warnNoInputs
  | f :: rest =>
      if dest = "" then ProcOutcome.warnNoDestination
      else if fmt = "Zip" then
        match create_zip hasPyzipper tier1Fails zipInstalled toolFails
            (f :: rest) dest pwd recursive exclude with
        | ZipResult.pyzipperWrite es =>
            ProcOutcome.successMsg [(dest, FileData.zipArchive es)]
        | ZipResult.externalCmd cmd =>
            ProcOutcome.successMsg [(dest, FileData.externalZip cmd)]
        | ZipResult.standardWrite es =>
            ProcOutcome.successMsg [(dest, FileData.zipArchive es)]
        | ZipResult.errPyzipper => ProcOutcome.criticalError "pyzipper error"
        | ZipResult.errToolMissing =>
            ProcOutcome.criticalError "System zip command not found"
        | ZipResult.errToolFailed =>
            ProcOutcome.criticalError "System zip command failed"
      else if fmt = "Tar" then
        ProcOutcome.successMsg
          [(dest, FileData.tarArchive (create_tar_entries recursive exclude (f :: rest)))]
      else if fmt = "Gzip" || fmt = "Bzip2" || fmt = "Xz" then
        match create_single_compress fmt f dest with
        | Except.ok ws => ProcOutcome.successMsg ws
        | Except.error m => ProcOutcome.criticalError m
      else ProcOutcome.infoExternalBinaries

/-- Outcome of `IArchiveApp.run_extraction` (src/main.py:616-654): the
warning for missing source or destination, each dispatch branch with what it
extracts or writes, the warning shown when the zip is encrypted, and the
fall-through in which no suffix matched, nothing was done, and the success
box was still shown. -/
inductive ExtractResult where
  | missingInfo
  | zipExtract (members : List String)
  | encryptedZipWarning
  | tarExtract (members : List String)
  | targzExtract (members : List String)
  | gzDecompress (outName : String)
  | successNoExtract
deriving DecidableEq

/-- Embedding of `IArchiveApp.run_extraction` (src/main.py:616-654).
`zipNames` and `tarNames` are the member names the corresponding archive
would list; `zipEncrypted` models the `RuntimeError` branch for encrypted
zips.  The suffix dispatch order and the unguarded success message after the
chain are exactly those of the source. -/
def run_extraction (srcExists zipEncrypted : Bool)
    (zipNames tarNames : List String) (src dest exclude : String) :
    ExtractResult :=
  if !srcExists || dest = "" then ExtractResult.missingInfo
  else if pyEndsWith src ".zip" then
    if zipEncrypted then ExtractResult.encryptedZipWarning
    else ExtractResult.zipExtract (zipNames.filter fun m => !_should_exclude m exclude)
  else if pyEndsWith src ".tar" then
    ExtractResult.tarExtract (tarNames.filter fun m => !_should_exclude m exclude)
  else if pyEndsWith src ".tar.gz" || pyEndsWith src ".tgz" then
    ExtractResult.targzExtract (tarNames.filter fun m => !_should_exclude m exclude)
  else if pyEndsWith src ".gz" then
    ExtractResult.gzDecompress (pyJoin dest (pyReplace (pyBasename src) ".gz" ""))
  else ExtractResult.successNoExtract

/-- One member of a tar archive: its name and payload. -/
structure Member where
  name : String
  content : List Nat
deriving DecidableEq

/-- The two files `IArchiveApp.delete_from_archive` touches: the archive at
`arc_path` and, when present, the temporary archive at `arc_path + ".tmp"`. -/
structure DelFS where
  arc : List Member
  tmp : Option (List Member)
deriving DecidableEq

/-- Outcome of the repack: the success path after `shutil.move`, or the
`Failed to repack` critical box with the files as they stand. -/
inductive DelResult where
  | ok (fs : DelFS)
  | repackFailed (fs : DelFS)
deriving DecidableEq

/-- The copy loop of `IArchiveApp.delete_from_archive` (src/main.py:740-742):
every member whose name differs from the one being deleted is copied into the
temporary archive, in order.  `fail m` models `extractfile`/`addfile`
raising while copying `m`; the error value carries the members already
copied, which is what the temporary file holds at that point. -/
def copyMembers (fail : Member → Bool) (entryName : String) :
    List Member → List Member → Except (List Member) (List Member)
  | [], acc => Except.ok acc
  | m :: rest, acc =>
      if m.name ≠ entryName then
        if fail m then Except.error acc
        else copyMembers fail entryName rest (acc ++ [m])
      else copyMembers fail entryName rest acc

/-- Embedding of `IArchiveApp.delete_from_archive` (src/main.py:735-747):
open the archive for reading, write the surviving members to the sibling
`.tmp` path, then `shutil.move` the temporary file onto the archive path.
On an exception during the copy the function reports failure, leaving the
archive as it was and the partially written temporary file on disk. -/
def delete_from_archive (fail : Member → Bool) (entryName : String)
    (arc : List Member) : DelResult :=
  match copyMembers fail entryName arc [] with
  | Except.ok tmp => DelResult.ok ⟨tmp, none⟩
  | Except.error tmpSoFar => DelResult.repackFailed ⟨arc, some tmpSoFar⟩

end IArchive

namespace IArchive

/-- A filename's suffix pattern also terminates any longer path ending in that
filename. -/
theorem should_exclude_of_suffix {fn ex : String} (pre : String)
    (h : _should_exclude fn ex = true) :
    _should_exclude (pre ++ fn) ex = true := by
  unfold _should_exclude at h ⊢
  by_cases hex : ex = ""
  · simp [hex] at h
  · rw [if_neg hex] at h
    rw [if_neg hex]
    unfold pyEndsWith at h ⊢
    rw [List.isSuffixOf_iff_suffix] at h
    rw [List.isSuffixOf_iff_suffix, String.data_append]
    exact h.trans (List.suffix_append pre.data fn.data)

/-- C4: `_should_exclude` returns false when the pattern is empty (the falsy
case in Python), and otherwise returns true exactly when the name ends with
the pattern as a plain character-sequence suffix, with no glob matching. -/
theorem should_exclude_spec (name p : String) :
    _should_exclude name p = true ↔ (p ≠ "" ∧ p.data <:+ name.data) := by
  unfold _should_exclude pyEndsWith
  by_cases hp : p = "" <;> simp [hp, List.isSuffixOf_iff_suffix]

/-- Witness for `should_exclude_spec` at a concrete name and pattern. -/
theorem should_exclude_spec_witness :
    _should_exclude "a.tmp" ".tmp" = true ↔
      ((".tmp" : String) ≠ "" ∧ (".tmp" : String).data <:+ ("a.tmp" : String).data) :=
  should_exclude_spec "a.tmp" ".tmp"

/-- C2: if the repack of `delete_from_archive` fails at any copy step before
the final `shutil.move`, the archive at the original path still holds exactly
its pre-operation members; only the final move ever changes it. -/
theorem delete_failure_preserves_archive (fail : Member → Bool)
    (entryName : String) (arc : List Member) (fs : DelFS)
    (h : delete_from_archive fail entryName arc = DelResult.repackFailed fs) :
    fs.arc = arc := by
  unfold delete_from_archive at h
  split at h
  · exact absurd h (by simp)
  · cases h
    rfl

/-- Witness for `delete_failure_preserves_archive`: copying member `b`
throws, the operation fails, and the original two-member archive is kept
verbatim in the failure state. -/
theorem delete_failure_preserves_archive_witness :
    (DelFS.mk [Member.mk "a" [1], Member.mk "b" [2]] (some [Member.mk "a" [1]])).arc
      = [Member.mk "a" [1], Member.mk "b" [2]] :=
  delete_failure_preserves_archive (fun m => m.name == "b") "zzz"
    [Member.mk "a" [1], Member.mk "b" [2]]
    (DelFS.mk [Member.mk "a" [1], Member.mk "b" [2]] (some [Member.mk "a" [1]]))
    (by decide)

/-- When the entry being deleted is absent and no copy step throws, the copy
loop duplicates the archive member for member. -/
theorem copyMembers_all_ok (fail : Member → Bool) (entryName : String)
    (arc : List Member) (acc : List Member)
    (h1 : entryName ∉ arc.map Member.name)
    (h2 : ∀ m ∈ arc, fail m = false) :
    copyMembers fail entryName arc acc = Except.ok (acc ++ arc) := by
  induction arc generalizing acc with
  | nil => simp [copyMembers]
  | cons m rest ih =>
    rw [List.map_cons, List.mem_cons] at h1
    push_neg at h1
    unfold copyMembers
    rw [if_pos (fun hmn => h1.1 hmn.symm), h2 m (List.mem_cons_self m rest)]
    simp only [Bool.false_eq_true, if_false]
    rw [ih (acc ++ [m]) h1.2 (fun x hx => h2 x (List.mem_cons_of_mem m hx))]
    simp [List.append_assoc]

/-- C3: deleting an entry name that occurs nowhere in the archive succeeds
(no copy step can throw for the claim to hold, modelled by the oracle being
false on every member) and leaves the archive's member list — in particular
its entry set — unchanged, with the temporary file consumed by the move. -/
theorem delete_absent_entry_noop (fail : Member → Bool) (entryName : String)
    (arc : List Member)
    (h1 : entryName ∉ arc.map Member.name)
    (h2 : ∀ m ∈ arc, fail m = false) :
    delete_from_archive fail entryName arc = DelResult.ok (DelFS.mk arc none) := by
  unfold delete_from_archive
  rw [copyMembers_all_ok fail entryName arc [] h1 h2]
  simp

/-- Witness for `delete_absent_entry_noop` at a concrete archive. -/
theorem delete_absent_entry_noop_witness :
    delete_from_archive (fun _ => false) "missing.txt" [Member.mk "a" [5]]
      = DelResult.ok (DelFS.mk [Member.mk "a" [5]] none) :=
  delete_absent_entry_noop (fun _ => false) "missing.txt" [Member.mk "a" [5]]
    (by decide) (by decide)

/-- C10: when the repack fails after the temporary archive was opened for
writing but before the final move, the failure state still holds a file at
the `.tmp` sibling path — the error path removes nothing. -/
theorem delete_failure_leaves_temp (fail : Member → Bool) (entryName : String)
    (arc : List Member) (fs : DelFS)
    (h : delete_from_archive fail entryName arc = DelResult.repackFailed fs) :
    fs.tmp.isSome = true := by
  unfold delete_from_archive at h
  split at h
  · exact absurd h (by simp)
  · cases h
    rfl

/-- Witness for `delete_failure_leaves_temp`: the very first copy throws and
the empty temporary archive stays on disk. -/
theorem delete_failure_leaves_temp_witness :
    (DelFS.mk [Member.mk "a" [0]] (some [])).tmp.isSome = true :=
  delete_failure_leaves_temp (fun m => m.name == "a") "q" [Member.mk "a" [0]]
    (DelFS.mk [Member.mk "a" [0]] (some [])) (by decide)

/-- C6: when pyzipper is available and a password was supplied, a failure of
the pyzipper tier is reported as the encryption-library error and the
operation reaches neither the external-tool tier nor the standard in-process
writer. -/
theorem create_zip_tier1_hard_failure
    (hasPyzipper tier1Fails zipInstalled toolFails : Bool)
    (inputs : List Input) (dest pwd : String) (recursive : Bool)
    (exclude : String)
    (hp : hasPyzipper = true) (hw : pwd ≠ "") (hf : tier1Fails = true) :
    create_zip hasPyzipper tier1Fails zipInstalled toolFails inputs dest pwd
        recursive exclude = ZipResult.errPyzipper
    ∧ (∀ c, create_zip hasPyzipper tier1Fails zipInstalled toolFails inputs
        dest pwd recursive exclude ≠ ZipResult.externalCmd c)
    ∧ (∀ es, create_zip hasPyzipper tier1Fails zipInstalled toolFails inputs
        dest pwd recursive exclude ≠ ZipResult.standardWrite es) := by
  subst hp hf
  have hmain : create_zip true true zipInstalled toolFails inputs dest pwd
      recursive exclude = ZipResult.errPyzipper := by
    unfold create_zip
    simp [hw]
  refine ⟨hmain, fun c hc => ?_, fun es he => ?_⟩
  · rw [hmain] at hc
    exact absurd hc (by simp)
  · rw [hmain] at he
    exact absurd he (by simp)

/-- Witness for `create_zip_tier1_hard_failure` at concrete arguments. -/
theorem create_zip_tier1_hard_failure_witness :
    create_zip true true false false [Input.mk "" (FSNode.file "a" [])]
      "out.zip" "pw" true "" = ZipResult.errPyzipper :=
  (create_zip_tier1_hard_failure true true false false
    [Input.mk "" (FSNode.file "a" [])] "out.zip" "pw" true ""
    rfl (by decide) rfl).1

/-- C8: a source whose name ends with none of the recognized suffixes falls
through every dispatch branch of `run_extraction`; nothing is extracted and
the unconditional success box is still shown, instead of any
unsupported-extension failure. -/
theorem unsupported_extension_reports_success :
    run_extraction true false ["m1"] ["m2"] "archive.bz2" "/out" ""
      = ExtractResult.successNoExtract := by decide

/-- Counterexample to C9 as stated: for the source `a.gz.gz` the code removes
every occurrence of `.gz` from the base name — `str.replace` is not anchored
to the suffix — so the output file is `out/a` and not `out/a.gz`. -/
theorem gz_replace_strips_all_occurrences_cex :
    run_extraction true false [] [] "a.gz.gz" "out" ""
      = ExtractResult.gzDecompress "out/a"
    ∧ ("out/a" : String) ≠ "out/a.gz" := by decide

/-- C9 amended: extracting a plain gzip source writes the decompressed stream
to a file inside the destination directory named by removing every occurrence
of the substring `.gz` from the source's base name. -/
theorem gz_extract_output_name (srcExists zipEncrypted : Bool)
    (zipNames tarNames : List String) (src dest exclude : String)
    (hs : srcExists = true) (hd : dest ≠ "")
    (h1 : pyEndsWith src ".zip" = false) (h2 : pyEndsWith src ".tar" = false)
    (h3 : pyEndsWith src ".tar.gz" = false) (h4 : pyEndsWith src ".tgz" = false)
    (h5 : pyEndsWith src ".gz" = true) :
    run_extraction srcExists zipEncrypted zipNames tarNames src dest exclude
      = ExtractResult.gzDecompress
          (pyJoin dest (pyReplace (pyBasename src) ".gz" "")) := by
  subst hs
  unfold run_extraction
  simp [h1, h2, h3, h4, h5, hd]

/-- Witness for `gz_extract_output_name` at a concrete source. -/
theorem gz_extract_output_name_witness :
    run_extraction true false [] [] "notes.txt.gz" "out" ""
      = ExtractResult.gzDecompress
          (pyJoin "out" (pyReplace (pyBasename "notes.txt.gz") ".gz" "")) :=
  gz_extract_output_name true false [] [] "notes.txt.gz" "out" "" rfl
    (by decide) (by decide) (by decide) (by decide) (by decide) (by decide)

/-- Counterexample to C1 as stated: a Gzip request with two input paths does
not fail with any unsupported-input-count error — it reports success and
writes the destination file from the first input alone. -/
theorem gzip_two_inputs_cex :
    process_archive_action false false false false
        [Input.mk "" (FSNode.file "a" [1]), Input.mk "" (FSNode.file "b" [2])]
        "Gzip" "" true "" "out.gz"
      = ProcOutcome.successMsg [("out.gz", FileData.compressed "Gzip" [1])]
    ∧ ProcOutcome.successMsg [("out.gz", FileData.compressed "Gzip" [1])]
        ≠ ProcOutcome.unsupportedInputCount := by decide

/-- C1 amended: for the single-input-only formats the Writer performs no
input-count re-validation; with several input paths the operation behaves
exactly as with the first path alone, and when that first path is a regular
file it succeeds, writing the compressed stream to the destination. -/
theorem single_compress_ignores_extra_inputs
    (hasPyzipper tier1Fails zipInstalled toolFails : Bool)
    (f : Input) (rest : List Input) (fmt pwd : String) (recursive : Bool)
    (exclude dest : String)
    (hf : fmt = "Gzip" ∨ fmt = "Bzip2" ∨ fmt = "Xz") :
    process_archive_action hasPyzipper tier1Fails zipInstalled toolFails
        (f :: rest) fmt pwd recursive exclude dest
      = process_archive_action hasPyzipper tier1Fails zipInstalled toolFails
          [f] fmt pwd recursive exclude dest
    ∧ ∀ nm content, f.node = FSNode.file nm content → dest ≠ "" →
        process_archive_action hasPyzipper tier1Fails zipInstalled toolFails
            (f :: rest) fmt pwd recursive exclude dest
          = ProcOutcome.successMsg [(dest, FileData.compressed fmt content)] := by
  have hz : fmt ≠ "Zip" := by rcases hf with h | h | h <;> subst h <;> decide
  have ht : fmt ≠ "Tar" := by rcases hf with h | h | h <;> subst h <;> decide
  have hg : (fmt = "Gzip" ∨ fmt = "Bzip2" ∨ fmt = "Xz") := hf
  constructor
  · unfold process_archive_action
    by_cases hd : dest = "" <;>
      rcases hg with h | h | h <;> subst h <;> simp [hd]
  · intro nm content hn hd
    unfold process_archive_action
    rcases hg with h | h | h <;> subst h <;>
      simp [hd, hn, create_single_compress]

/-- Witness for `single_compress_ignores_extra_inputs`: two inputs, format
Gzip — the outcome is success with the first file's bytes compressed. -/
theorem single_compress_ignores_extra_inputs_witness :
    process_archive_action false false false false
        [Input.mk "" (FSNode.file "a" [3]), Input.mk "" (FSNode.file "b" [4])]
        "Gzip" "" true "" "o.gz"
      = ProcOutcome.successMsg [("o.gz", FileData.compressed "Gzip" [3])] :=
  (single_compress_ignores_extra_inputs false false false false
      (Input.mk "" (FSNode.file "a" [3])) [Input.mk "" (FSNode.file "b" [4])]
      "Gzip" "" true "" "o.gz" (Or.inl rfl)).2 "a" [3] rfl (by decide)

/-- A well-formed single path component, as directory listings yield them:
non-empty and free of the separator character. -/
def validName (n : String) : Prop := n ≠ "" ∧ '/' ∉ n.data

/-- A component without a separator does not start with one. -/
theorem pyStartsWith_sep_false {b : String} (hb : '/' ∉ b.data) :
    pyStartsWith b "/" = false := by
  unfold pyStartsWith
  by_contra h
  rw [Bool.not_eq_false, List.isPrefixOf_iff_prefix] at h
  obtain ⟨t, ht⟩ := h
  apply hb
  rw [← ht]
  have hsep : ("/" : String).data = ['/'] := rfl
  rw [hsep]
  simp

/-- A component without a separator does not end with one. -/
theorem pyEndsWith_sep_false {a : String} (ha : '/' ∉ a.data) :
    pyEndsWith a "/" = false := by
  unfold pyEndsWith
  by_contra h
  rw [Bool.not_eq_false, List.isSuffixOf_iff_suffix] at h
  obtain ⟨t, ht⟩ := h
  apply ha
  rw [← ht]
  have hsep : ("/" : String).data = ['/'] := rfl
  rw [hsep]
  simp

/-- On well-formed components `os.path.join` is plain concatenation with a
separator. -/
theorem pyJoin_valid {a b : String} (ha : validName a) (hb : validName b) :
    pyJoin a b = a ++ "/" ++ b := by
  unfold pyJoin
  rw [pyStartsWith_sep_false hb.2, pyEndsWith_sep_false ha.2]
  simp [ha.1]

/-- Appending a separator and a component strictly lengthens a string. -/
theorem append_sep_ne {a b : String} : a ++ "/" ++ b ≠ a := by
  intro h
  have hl := congrArg String.length h
  rw [String.length_append, String.length_append] at hl
  have h1 : ("/" : String).length = 1 := rfl
  omega

/-- With `recursive` off, the filter of `create_tar` prunes every child
directory (its archive name differs from the base) but keeps every child
file that survives the exclusion check. -/
theorem tarAddList_nonrecursive (nm exclude : String) (cs : List FSNode)
    (hvn : validName nm) (hvc : ∀ c ∈ cs, validName c.name) :
    tarAddList (tarFilterKeep false nm exclude) cs nm
      = cs.flatMap (fun c =>
          match c with
          | FSNode.file fn _ =>
              if _should_exclude (nm ++ "/" ++ fn) exclude then []
              else [nm ++ "/" ++ fn]
          | FSNode.dir _ _ => []) := by
  induction cs with
  | nil => simp [tarAddList]
  | cons c rest ih =>
    have hvcc : validName c.name := hvc c (List.mem_cons_self c rest)
    have hj : pyJoin nm c.name = nm ++ "/" ++ c.name := pyJoin_valid hvn hvcc
    unfold tarAddList
    rw [ih (fun x hx => hvc x (List.mem_cons_of_mem c hx))]
    cases c with
    | file fn content =>
      rw [List.flatMap_cons]
      simp only [FSNode.name] at hj ⊢
      rw [hj]
      congr 1
      unfold tarAddNode tarFilterKeep
      cases hse : _should_exclude (nm ++ "/" ++ fn) exclude <;> simp [hse]
    | dir dn cs2 =>
      rw [List.flatMap_cons]
      simp only [FSNode.name] at hj ⊢
      rw [hj]
      have hne : nm ++ "/" ++ dn ≠ nm := append_sep_ne
      unfold tarAddNode tarFilterKeep
      simp [hne]

/-- Counterexample to C7 as stated: a non-recursive tar of directory `d`
holding file `x.txt` contains an entry for the contained file, not only the
directory's own entry. -/
theorem nonrecursive_tar_contains_child_file_cex :
    "d/x.txt" ∈ create_tar_entries false ""
        [Input.mk "" (FSNode.dir "d" [FSNode.file "x.txt" []])]
    ∧ create_tar_entries false ""
        [Input.mk "" (FSNode.dir "d" [FSNode.file "x.txt" []])] ≠ ["d"] := by
  decide

/-- C7 amended: a non-recursive tar of a directory contains the directory's
own entry followed by one entry per immediate regular-file child surviving
the exclusion check, and nothing from child directories or below them: the
filter only prunes directory members, and `tarfile.add` does not descend
into pruned directories. -/
theorem create_tar_nonrecursive_dir (pre nm : String) (cs : List FSNode)
    (exclude : String)
    (hvn : validName nm)
    (hvc : ∀ c ∈ cs, validName c.name)
    (hnx : _should_exclude (pre ++ nm) exclude = false)
    (hnm : _should_exclude nm exclude = false) :
    create_tar_entries false exclude [Input.mk pre (FSNode.dir nm cs)]
      = nm :: cs.flatMap (fun c =>
          match c with
          | FSNode.file fn _ =>
              if _should_exclude (nm ++ "/" ++ fn) exclude then []
              else [nm ++ "/" ++ fn]
          | FSNode.dir _ _ => []) := by
  unfold create_tar_entries
  simp only [List.flatMap_cons, List.flatMap_nil, List.append_nil,
    Input.fullPath, FSNode.name, hnx, Bool.false_eq_true, if_false]
  unfold tarAddNode
  rw [← tarAddList_nonrecursive nm exclude cs hvn hvc]
  simp [tarFilterKeep, hnm]

/-- Witness for `create_tar_nonrecursive_dir` on a directory with a kept
file and an excluded file. -/
theorem create_tar_nonrecursive_dir_witness :
    create_tar_entries false ".tmp"
        [Input.mk "" (FSNode.dir "d" [FSNode.file "x.txt" [], FSNode.file "y.tmp" []])]
      = "d" :: [FSNode.file "x.txt" [], FSNode.file "y.tmp" []].flatMap (fun c =>
          match c with
          | FSNode.file fn _ =>
              if _should_exclude ("d" ++ "/" ++ fn) ".tmp" then []
              else ["d" ++ "/" ++ fn]
          | FSNode.dir _ _ => []) :=
  create_tar_nonrecursive_dir "" "d" [FSNode.file "x.txt" [], FSNode.file "y.tmp" []]
    ".tmp" ⟨by decide, by decide⟩
    (by intro c hc
        fin_cases hc <;> exact ⟨by decide, by decide⟩)
    (by decide) (by decide)

/-- Counterexample to C5 as stated, in both places where the code departs
from it.  First, with a password and no pyzipper, the external-tool tier
hands the raw input paths to the `zip` command without applying the
exclusion filter, so a file ending in the non-empty exclusion suffix is not
omitted from the archive the tool builds.  Second, even on the in-process
standard tier, the non-recursive directory branch writes the directory
placeholder entry with no exclusion check, so a directory whose name ends in
the suffix still appears as an entry. -/
theorem zip_exclusion_gaps_cex :
    (create_zip false false true false [Input.mk "" (FSNode.file "a.tmp" [7])]
        "out.zip" "pw" true ".tmp"
      = ZipResult.externalCmd ["zip", "-P", "pw", "-r", "out.zip", "a.tmp"]
     ∧ _should_exclude "a.tmp" ".tmp" = true
     ∧ "a.tmp" ∈ ["zip", "-P", "pw", "-r", "out.zip", "a.tmp"])
    ∧ (create_zip false false false false [Input.mk "" (FSNode.dir "build.tmp" [])]
        "out.zip" "" false ".tmp"
      = ZipResult.standardWrite [ZEntry.mk "build.tmp" "build.tmp" false]
     ∧ _should_exclude "build.tmp" ".tmp" = true) := by
  decide

/-- A name the tar filter keeps, at either kind, never ends in the exclusion
pattern: the filter's second branch drops it otherwise. -/
theorem tarFilterKeep_excluded (recursive : Bool) (base exclude name : String)
    (isdir : Bool) (h : tarFilterKeep recursive base exclude name isdir = true) :
    _should_exclude name exclude = false := by
  by_cases hse : _should_exclude name exclude = true
  · unfold tarFilterKeep at h
    simp [hse] at h
  · simpa using hse

/-- Size-bounded form of the tar filtering property over a children list:
every name emitted below it passed the filter, hence does not end in the
exclusion pattern. -/
theorem tarAddList_filtered_aux (exclude : String) (recursive : Bool)
    (base : String) (n : Nat) :
    ∀ (cs : List FSNode), sizeOf cs ≤ n → ∀ (arc : String),
      ∀ a ∈ tarAddList (tarFilterKeep recursive base exclude) cs arc,
        _should_exclude a exclude = false := by
  induction n with
  | zero =>
    intro cs hcs
    exfalso
    cases cs with
    | nil => simp at hcs
    | cons c rest => simp at hcs
  | succ n ih =>
    intro cs hcs arc a ha
    cases cs with
    | nil => simp [tarAddList] at ha
    | cons c rest =>
      simp at hcs
      unfold tarAddList at ha
      rw [List.mem_append] at ha
      rcases ha with ha | ha
      · cases c with
        | file fn ct =>
          simp only [FSNode.name] at ha
          unfold tarAddNode at ha
          by_cases hk : tarFilterKeep recursive base exclude (pyJoin arc fn) false = true
          · rw [if_pos hk, List.mem_singleton] at ha
            subst ha
            exact tarFilterKeep_excluded recursive base exclude _ false hk
          · rw [if_neg hk] at ha
            simp at ha
        | dir dn cs2 =>
          simp at hcs
          simp only [FSNode.name] at ha
          unfold tarAddNode at ha
          by_cases hk : tarFilterKeep recursive base exclude (pyJoin arc dn) true = true
          · rw [if_pos hk, List.mem_cons] at ha
            rcases ha with ha | ha
            · subst ha
              exact tarFilterKeep_excluded recursive base exclude _ true hk
            · exact ih cs2 (by omega) (pyJoin arc dn) a ha
          · rw [if_neg hk] at ha
            simp at ha
      · exact ih rest (by omega) arc a ha

/-- Every name emitted for one input node by the tar add recursion passed
the filter. -/
theorem tarAddNode_filtered (recursive : Bool) (base exclude : String)
    (c : FSNode) (arc : String) :
    ∀ a ∈ tarAddNode (tarFilterKeep recursive base exclude) c arc,
      _should_exclude a exclude = false := by
  intro a ha
  cases c with
  | file fn ct =>
    unfold tarAddNode at ha
    by_cases hk : tarFilterKeep recursive base exclude arc false = true
    · rw [if_pos hk, List.mem_singleton] at ha
      subst ha
      exact tarFilterKeep_excluded recursive base exclude _ false hk
    · rw [if_neg hk] at ha
      simp at ha
  | dir dn cs2 =>
    unfold tarAddNode at ha
    by_cases hk : tarFilterKeep recursive base exclude arc true = true
    · rw [if_pos hk, List.mem_cons] at ha
      rcases ha with ha | ha
      · subst ha
        exact tarFilterKeep_excluded recursive base exclude _ true hk
      · exact tarAddList_filtered_aux exclude recursive base (sizeOf cs2) cs2
          (Nat.le_refl _) arc a ha
    · rw [if_neg hk] at ha
      simp at ha

/-- Every entry of a tar built by `create_tar` — file or directory, at any
depth — has an archive name that does not end in the exclusion pattern: the
filter inspects every tarinfo name. -/
theorem create_tar_entries_filtered (recursive : Bool) (exclude : String)
    (files : List Input) :
    ∀ a ∈ create_tar_entries recursive exclude files,
      _should_exclude a exclude = false := by
  intro a ha
  unfold create_tar_entries at ha
  rw [List.mem_flatMap] at ha
  obtain ⟨i, hi, ha⟩ := ha
  by_cases hx : _should_exclude i.fullPath exclude = true
  · simp [hx] at ha
  · have hx' : _should_exclude i.fullPath exclude = false := by simpa using hx
    simp [hx'] at ha
    exact tarAddNode_filtered recursive i.node.name exclude i.node i.node.name a ha

/-- Every walked-file entry passed its own filename through the exclusion
filter. -/
theorem zipFilesHere_filtered (exclude pre : String) (cs : List FSNode) :
    ∀ e ∈ zipFilesHere exclude pre cs,
      e.isFile = true ∧ _should_exclude e.fname exclude = false := by
  induction cs with
  | nil => intro e he; simp [zipFilesHere] at he
  | cons c rest ih =>
    intro e he
    cases c with
    | file fn content =>
      unfold zipFilesHere at he
      rw [List.mem_append] at he
      by_cases hx : _should_exclude fn exclude = true
      · rcases he with he | he
        · simp [hx] at he
        · exact ih e he
      · have hx' : _should_exclude fn exclude = false := by simpa using hx
        rcases he with he | he
        · simp [hx'] at he
          subst he
          exact ⟨rfl, hx'⟩
        · exact ih e he
    | dir dn cs2 =>
      unfold zipFilesHere at he
      exact ih e he

/-- Size-bounded form of the walk property, to recurse through the nested
tree structure. -/
theorem zipWalkDirs_filtered_aux (exclude : String) (n : Nat) :
    ∀ (cs : List FSNode), sizeOf cs ≤ n → ∀ (pre : String),
      ∀ e ∈ zipWalkDirs exclude pre cs,
        e.isFile = true ∧ _should_exclude e.fname exclude = false := by
  induction n with
  | zero =>
    intro cs hcs
    exfalso
    cases cs with
    | nil => simp at hcs
    | cons c rest => simp at hcs
  | succ n ih =>
    intro cs hcs pre e he
    cases cs with
    | nil => simp [zipWalkDirs] at he
    | cons c rest =>
      simp at hcs
      unfold zipWalkDirs at he
      rw [List.mem_append] at he
      rcases he with he | he
      · cases c with
        | file fn ct => simp [zipWalkNode] at he
        | dir dn cs2 =>
          simp at hcs
          unfold zipWalkNode at he
          rw [List.mem_append] at he
          rcases he with he | he
          · exact zipFilesHere_filtered exclude (pyJoin pre dn) cs2 e he
          · exact ih cs2 (by omega) (pyJoin pre dn) e he
      · exact ih rest (by omega) pre e he

/-- Every entry contributed below one directory by the walk passed the
exclusion filter on its filename. -/
theorem zipWalkDirs_filtered (exclude pre : String) (cs : List FSNode) :
    ∀ e ∈ zipWalkDirs exclude pre cs,
      e.isFile = true ∧ _should_exclude e.fname exclude = false :=
  zipWalkDirs_filtered_aux exclude (sizeOf cs) cs (Nat.le_refl _) pre

/-- Every regular-file entry written by `_write_to_zip` has a filename that
does not end in the exclusion pattern. -/
theorem write_to_zip_filtered (recursive : Bool) (exclude : String)
    (inputs : List Input) :
    ∀ e ∈ _write_to_zip recursive exclude inputs, e.isFile = true →
      _should_exclude e.fname exclude = false := by
  intro e he hf
  unfold _write_to_zip at he
  rw [List.mem_flatMap] at he
  obtain ⟨i, hi, he⟩ := he
  cases hn : i.node with
  | file fn ct =>
    rw [hn] at he
    by_cases hx : _should_exclude (i.pre ++ fn) exclude = true
    · simp [hx] at he
    · have hx' : _should_exclude (i.pre ++ fn) exclude = false := by simpa using hx
      simp [hx'] at he
      subst he
      by_contra hc
      have hc' : _should_exclude fn exclude = true := by simpa using hc
      have := should_exclude_of_suffix i.pre hc'
      rw [hx'] at this
      exact absurd this (by decide)
  | dir dn cs =>
    rw [hn] at he
    by_cases hr : recursive = true
    · rw [hr] at he
      simp only [if_true] at he
      rw [List.mem_append] at he
      rcases he with he | he
      · exact (zipFilesHere_filtered exclude dn cs e he).2
      · exact (zipWalkDirs_filtered exclude dn cs e he).2
    · have hr' : recursive = false := by simpa using hr
      rw [hr'] at he
      simp at he
      subst he
      simp at hf

/-- C5 amended: on every archive write path the exclusion filter is honoured
except exactly where the counterexample shows it is not.  Both in-process
zip tiers (pyzipper with a password, and the standard writer without one)
omit every regular-file entry whose filename ends in the non-empty exclusion
suffix, and the tar path omits every entry of any kind whose archive name
ends in it; the external-tool zip tier and the non-recursive zip directory
placeholder (see the counterexample) perform no such filtering. -/
theorem write_paths_exclusion_filtering
    (hasPyzipper tier1Fails zipInstalled toolFails : Bool) (inputs : List Input)
    (dest pwd : String) (recursive : Bool) (exclude : String) (es : List ZEntry)
    (_hex : exclude ≠ "")
    (h : create_zip hasPyzipper tier1Fails zipInstalled toolFails inputs dest
          pwd recursive exclude = ZipResult.pyzipperWrite es
       ∨ create_zip hasPyzipper tier1Fails zipInstalled toolFails inputs dest
          pwd recursive exclude = ZipResult.standardWrite es) :
    (∀ e ∈ es, e.isFile = true → _should_exclude e.fname exclude = false)
    ∧ (∀ a ∈ create_tar_entries recursive exclude inputs,
        _should_exclude a exclude = false) := by
  constructor
  · have hes : es = _write_to_zip recursive exclude inputs := by
      rcases h with h | h <;>
      · unfold create_zip at h
        repeat' split at h
        all_goals first
          | (cases h; rfl)
          | simp at h
    subst hes
    exact write_to_zip_filtered recursive exclude inputs
  · exact create_tar_entries_filtered recursive exclude inputs

/-- Witness for `write_paths_exclusion_filtering`: the standard tier on two
files with exclusion suffix `.tmp` keeps only `a.txt`, whose name indeed
does not end in `.tmp`, and the tar build of the same inputs keeps only the
entry `a.txt`, which likewise does not end in `.tmp`. -/
theorem write_paths_exclusion_filtering_witness :
    _should_exclude "a.txt" ".tmp" = false ∧ _should_exclude "a.txt" ".tmp" = false :=
  ⟨(write_paths_exclusion_filtering false false false false
      [Input.mk "" (FSNode.file "a.txt" []), Input.mk "" (FSNode.file "b.tmp" [])]
      "d.zip" "" true ".tmp" [ZEntry.mk "a.txt" "a.txt" true]
      (by decide) (Or.inr (by decide))).1
    (ZEntry.mk "a.txt" "a.txt" true) (by decide) (by decide),
   (write_paths_exclusion_filtering false false false false
      [Input.mk "" (FSNode.file "a.txt" []), Input.mk "" (FSNode.file "b.tmp" [])]
      "d.zip" "" true ".tmp" [ZEntry.mk "a.txt" "a.txt" true]
      (by decide) (Or.inr (by decide))).2
    "a.txt" (by decide)⟩

end IArchive
